import Mathlib

/-!
Verification of the configuration engine of `src/config.py` (schema-driven
settings loading, template synthesis and aligned rendering).

The Python module is shallowly embedded: Python type annotations become the
inductive `PyType`, pydantic model classes become `PyModel`, Python runtime
values become `PyVal`, and Python `dict`s become ordered association lists
manipulated through `dictInsert` / `dictUnion` (assignment to an existing key
updates the value in place, new keys are appended — exactly Python's ordered
`dict` semantics).  Each helper function of the module is translated
definition by definition.
-/

namespace Config

/-! ## Python string primitives

Lean's built-in `String.toUpper`, `String.endsWith` … do not reduce inside the
kernel, so the few Python `str` methods the module uses are re-implemented
over the character list of the string. -/

/-- Python `s.upper()` (ASCII, which covers every key in the module). -/
def pyUpper (s : String) : String := String.mk (s.data.map Char.toUpper)

/-- Python `s.endswith(suffix)`. -/
def pyEndsWith (s suf : String) : Bool :=
  s.data.reverse.take suf.data.length == suf.data.reverse

/-- A run of `n` spaces, Python's `" " * n`. -/
def spaces (n : Nat) : String := String.mk (List.replicate n ' ')

/-- Python `s.ljust(width)`: pad with spaces on the right, never truncate. -/
def ljust (s : String) (width : Nat) : String :=
  s ++ String.mk (List.replicate (width - s.length) ' ')

/-- Python `max(iterable)`: `none` models the `ValueError` raised on an empty
iterable. -/
def pymax : List Nat → Option Nat
  | [] => Option.none
  | x :: xs => some (xs.foldl Nat.max x)

/-! ## Python values -/

/-- Python runtime values as they flow through the module: primitives, lists,
(ordered) dicts, and the `(value, comment)` pairs built by
`_generate_yaml_for_model` in documentation mode.  A float is carried by its
`str()` rendering, the only use the module makes of one. -/
inductive PyVal where
  | str (s : String)
  | int (n : Int)
  | float (r : String)
  | bool (b : Bool)
  | none
  | list (xs : List PyVal)
  | dict (entries : List (String × PyVal))
  | tuple2 (v : PyVal) (comment : Option String)

/-! ## Python type annotations and pydantic models -/

mutual
/-- The type annotations occurring in the module's models: primitives,
`SecretStr`, `Union`/`Optional` (with `noneT` playing `NoneType`),
`Dict[K, V]`, `List[T]`, `Literal[...]`, enums, nested `BaseModel` classes,
and a fallback for any other bare class. -/
inductive PyType where
  | strT
  | intT
  | floatT
  | boolT
  | noneT
  | secretStr
  | union (args : List PyType)
  | dictT (key val : PyType)
  | listT (item : PyType)
  | literalT (choices : List String)
  | enumT (ename : String) (members : List PyVal)
  | modelT (m : PyModel)
  | other (tname : String)

/-- One pydantic field: its name, annotation, declared default
(`Option.none` models `PydanticUndefined`, i.e. a required field) and
`description`.  The remaining `Field(...)` metadata (title, min/max length,
pattern, alias, …) is advisory and never read by the functions verified
here. -/
inductive PyField where
  | mk (fname : String) (ann : PyType) (dflt : Option PyVal)
      (description : Option String)

/-- A pydantic `BaseModel` class: its name and the ordered
`model_fields`. -/
inductive PyModel where
  | mk (mname : String) (fields : List PyField)
end

def PyField.name : PyField → String
  | .mk n _ _ _ => n

def PyField.ann : PyField → PyType
  | .mk _ a _ _ => a

def PyField.dflt : PyField → Option PyVal
  | .mk _ _ d _ => d

def PyField.description : PyField → Option String
  | .mk _ _ _ d => d

def PyModel.fields : PyModel → List PyField
  | .mk _ fs => fs

/-! ## Ordered dictionaries (Python `dict`) -/

/-- Python `d[k] = v`: update in place when the key exists, append
otherwise. -/
def dictInsert (d : List (String × α)) (k : String) (v : α) :
    List (String × α) :=
  if d.any (fun p => p.1 == k) then
    d.map (fun p => if p.1 == k then (k, v) else p)
  else d ++ [(k, v)]

/-- Python `d.get(k)`. -/
def dictLookup (d : List (String × α)) (k : String) : Option α :=
  (d.find? (fun p => p.1 == k)).map Prod.snd

/-- Python `d |= e`: assign every item of `e` into `d` in order. -/
def dictUnion (d e : List (String × α)) : List (String × α) :=
  e.foldl (fun acc p => dictInsert acc p.1 p.2) d

/-! ## Type classifier: `_is_secret_field` -/

/-- `typ is SecretStr`. -/
def isSecretStrType : PyType → Bool
  | .secretStr => true
  | _ => false

/-- Python `hasattr(typ, "__origin__")`: true exactly for subscripted
generics (`Union`, `Optional`, `Dict`, `List`, `Literal`). -/
def hasOrigin : PyType → Bool
  | .union _ => true
  | .dictT _ _ => true
  | .listT _ => true
  | .literalT _ => true
  | _ => false

/-- Python `typ.__args__` restricted to type arguments.  `Literal`'s
arguments are value literals, not types, so none of them can be
`SecretStr` and the list is empty here. -/
def typeArgs : PyType → List PyType
  | .union args => args
  | .dictT k v => [k, v]
  | .listT t => [t]
  | _ => []

/-- `_is_secret_field(field)`: the field's annotation is `SecretStr`
itself, or is a subscripted generic one of whose arguments is
`SecretStr`.  (The `except AttributeError` guard of the source cannot fire
in the embedding: every field carries an annotation.) -/
def _is_secret_field (field : PyField) : Bool :=
  let typ := field.ann
  if isSecretStrType typ then true
  else if hasOrigin typ then (typeArgs typ).any isSecretStrType
  else false

/-! ## Sample synthesis and YAML template generation

`_sample_value_for_type` and `_generate_yaml_for_model` are mutually
recursive in the source (a nested `BaseModel` samples to the model's
generated dict, with the `for_docs` argument left at its default `True`).
The `for` loop of `_generate_yaml_for_model` is `yamlFields`, threading the
`result` dict.  The source's `Annotated` branch is unreachable here: no
model of the module uses an `Annotated` type, so the embedding has no
constructor for it. -/

/-- The string literal `'{"str": "str", "str": "str"}'` returned for a
`Dict[str, str]` field. -/
def strStrSample : String :=
  "\x7b\"str\": \"str\", \"str\": \"str\"\x7d"

/-- Python `str(...)` applied to a freshly synthesized sample used as a dict
key (`str(_sample_value_for_type(key_type))`).  Synthesized samples for key
positions are primitives, so only the primitive renderings matter; the
container cases fall back to a marker that keeps the function total. -/
def pyStrOfSample : PyVal → String
  | .str s => s
  | .int n => toString n
  | .float r => r
  | .bool b => if b then "True" else "False"
  | .none => "None"
  | _ => "<container-key>"

mutual
/-- `_sample_value_for_type(tp)`. -/
def _sample_value_for_type : PyType → PyVal
  | .union args => sampleUnion args
  | .dictT .strT .strT => .str strStrSample
  | .dictT k v =>
      .dict [(pyStrOfSample (_sample_value_for_type k),
              _sample_value_for_type v)]
  | .listT t => .list [_sample_value_for_type t]
  | .strT => .str "<str>"
  | .intT => .int 0
  | .floatT => .float "0.0"
  | .boolT => .bool false
  | .enumT _ (v :: _) => v
  | .enumT _ [] => .str "<enum>"
  | .modelT m => .dict (_generate_yaml_for_model m true)
  | .secretStr => .str "<SecretStr>"
  | .noneT => .str "<NoneType>"
  | .literalT _ => .str "<Literal>"
  | .other tname => .str ("<" ++ tname ++ ">")
termination_by structural t => t

/-- The `Union` branch of `_sample_value_for_type`: sample the first
non-`None` alternative (`non_none[0]`), Python `None` when there is
none. -/
def sampleUnion : List PyType → PyVal
  | [] => .none
  | .noneT :: rest => sampleUnion rest
  | a :: _ => _sample_value_for_type a
termination_by structural l => l

/-- `_generate_yaml_for_model(model, for_docs)`. -/
def _generate_yaml_for_model (m : PyModel) (for_docs : Bool) :
    List (String × PyVal) :=
  match m with
  | .mk _ fields => yamlFields fields for_docs []
termination_by structural m

/-- The field loop of `_generate_yaml_for_model`: skip secret fields, take
the declared default when present and a synthesized sample otherwise, wrap
in a `(value, comment)` pair when `for_docs`. -/
def yamlFields : List PyField → Bool → List (String × PyVal) →
    List (String × PyVal)
  | [], _, result => result
  | .mk fname ann dflt desc :: fs, for_docs, result =>
    if _is_secret_field (.mk fname ann dflt desc) then
      yamlFields fs for_docs result
    else
      let value :=
        match dflt with
        | some d => d
        | Option.none => _sample_value_for_type ann
      let entry := if for_docs then PyVal.tuple2 value desc else value
      yamlFields fs for_docs (dictInsert result fname entry)
termination_by structural fs _ _ => fs
end

/-! ## Flat (.env) projection: `_generate_env_for_model` -/

/-- The literal `'{"sample": "value"}'` used for `*JSON` fields. -/
def jsonSample : String := "\x7b\"sample\": \"value\"\x7d"

mutual
/-- `_generate_env_for_model(model, prefix)`. -/
def _generate_env_for_model (m : PyModel) (pre : String) :
    List (String × String) :=
  match m with
  | .mk _ fields => envFields fields pre []
termination_by structural m

/-- The field loop of `_generate_env_for_model`: secrets map to
`"<SECRET>"`, nested models are merged in with the `__` delimiter appended
to the upper-cased key, `*JSON` fields map to a sample JSON string and every
other field is omitted. -/
def envFields : List PyField → String → List (String × String) →
    List (String × String)
  | [], _, result => result
  | .mk fname ann dflt desc :: fs, pre, result =>
    let env_key := pyUpper (pre ++ fname)
    let result' :=
      if _is_secret_field (.mk fname ann dflt desc) then
        dictInsert result env_key "<SECRET>"
      else
        match ann with
        | .modelT sub =>
            dictUnion result (_generate_env_for_model sub (env_key ++ "__"))
        | _ =>
            if pyEndsWith (pyUpper fname) "JSON" then
              dictInsert result env_key jsonSample
            else result
    envFields fs pre result'
termination_by structural fs _ _ => fs
end

/-! ## Aligned template renderer -/

mutual
/-- Python `repr(...)` as called (through `str`) on the values the renderer
meets.  String quoting is modelled without escape processing, which is exact
for every string the module produces. -/
def pyRepr : PyVal → String
  | .str s => "\x27" ++ s ++ "\x27"
  | .int n => toString n
  | .float r => r
  | .bool b => if b then "True" else "False"
  | .none => "None"
  | .list xs => "[" ++ String.intercalate ", " (pyReprList xs) ++ "]"
  | .dict es => "\x7b" ++ String.intercalate ", " (pyReprDict es) ++ "\x7d"
  | .tuple2 v c =>
      "(" ++ pyRepr v ++ ", " ++
        (match c with
         | some s => "\x27" ++ s ++ "\x27"
         | Option.none => "None") ++ ")"
termination_by structural v => v

def pyReprList : List PyVal → List String
  | [] => []
  | v :: vs => pyRepr v :: pyReprList vs
termination_by structural l => l

def pyReprDict : List (String × PyVal) → List String
  | [] => []
  | (k, v) :: es => ("\x27" ++ k ++ "\x27: " ++ pyRepr v) :: pyReprDict es
termination_by structural l => l
end

/-- Python `str(value)`: identity on strings, `repr`-like on everything
else. -/
def pyStr : PyVal → String
  | .str s => s
  | v => pyRepr v

/-- Python truthiness of the `comment` slot: `None` and `""` are falsy. -/
def pyTruthy : Option String → Bool
  | Option.none => false
  | some s => !(s == "")

mutual
/-- `_gather_all_keys_values(data, indent)`: one `(indent, key, value,
comment)` row per entry, in document order, recursing into dict values.
The `(value, comment) = val if isinstance(val, tuple) else (val, None)`
unpacking of the source is split over the match arms (first two arms:
tuple, remaining: bare value with `None` comment); `gatherNested` emits
the row and recurses when the unpacked value is a dict. -/
def _gather_all_keys_values :
    List (String × PyVal) → Nat → List (Nat × String × PyVal × Option String)
  | [], _ => []
  | (k, .tuple2 value c) :: rest, indent =>
      gatherNested k value c indent ++ _gather_all_keys_values rest indent
  | (k, value) :: rest, indent =>
      gatherNested k value Option.none indent ++
        _gather_all_keys_values rest indent
termination_by structural data _ => data

/-- One row of `_gather_all_keys_values` plus, when the unpacked value is a
dict, the recursively gathered sub-rows. -/
def gatherNested (k : String) :
    PyVal → Option String → Nat → List (Nat × String × PyVal × Option String)
  | .dict entries, comment, indent =>
      (indent, k, .dict entries, comment) ::
        _gather_all_keys_values entries (indent + 1)
  | v, comment, indent => [(indent, k, v, comment)]
termination_by structural v _ _ => v
end

/-- The row `_gather_comment_rows` appends for one entry: present exactly
when the comment is truthy. -/
def commentRowFor (indent : Nat) (k : String) (value : PyVal)
    (comment : Option String) : List (Nat × String × String × String) :=
  match comment with
  | some c =>
      if c == "" then []
      else [(indent, spaces (indent * 4) ++ k ++ ":", pyStr value, c)]
  | Option.none => []

mutual
/-- `_gather_comment_rows(data, indent)`: the rows of commented lines, used
for the comment-column width. -/
def _gather_comment_rows :
    List (String × PyVal) → Nat → List (Nat × String × String × String)
  | [], _ => []
  | (k, .tuple2 value c) :: rest, indent =>
      gatherCommentNested k value c indent ++ _gather_comment_rows rest indent
  | (k, value) :: rest, indent =>
      gatherCommentNested k value Option.none indent ++
        _gather_comment_rows rest indent
termination_by structural data _ => data

/-- The comment row (when the comment is truthy) plus, when the unpacked
value is a dict, the recursively gathered comment rows. -/
def gatherCommentNested (k : String) :
    PyVal → Option String → Nat → List (Nat × String × String × String)
  | .dict entries, comment, indent =>
      commentRowFor indent k (.dict entries) comment ++
        _gather_comment_rows entries (indent + 1)
  | v, comment, indent => commentRowFor indent k v comment
termination_by structural v _ _ => v
end

/-- One scalar output line of the inner `_print`: the key padded to the
global key column, then the value, then — when the comment is truthy — the
value padded to the comment column and `# comment`. -/
def scalarLine (maxKey maxVal : Nat) (indent : Nat) (k : String)
    (v : PyVal) (c : Option String) : String :=
  let key_str := ljust (spaces (indent * 4) ++ k ++ ":") (maxKey + 1)
  match c with
  | some cm =>
      if cm == "" then key_str ++ pyStr v
      else key_str ++ ljust (pyStr v) (maxVal + 4) ++ "# " ++ cm
  | Option.none => key_str ++ pyStr v

mutual
/-- The inner `_print(data, indent, is_top_level)` of
`_dump_yaml_with_comment_alignment`, returning the emitted lines.  At top
level a blank line is emitted before every entry after the first
(`dumpPrintTopRest`); the `(value, comment)` unpacking is split over the
match arms as in the gatherers. -/
def dumpPrint (maxKey maxVal : Nat) :
    List (String × PyVal) → Nat → Bool → List String
  | [], _, _ => []
  | (k, .tuple2 value c) :: rest, indent, true =>
      dumpValueLines maxKey maxVal indent k value c ++
        dumpPrintTopRest maxKey maxVal rest indent
  | (k, value) :: rest, indent, true =>
      dumpValueLines maxKey maxVal indent k value Option.none ++
        dumpPrintTopRest maxKey maxVal rest indent
  | (k, .tuple2 value c) :: rest, indent, false =>
      dumpValueLines maxKey maxVal indent k value c ++
        dumpPrint maxKey maxVal rest indent false
  | (k, value) :: rest, indent, false =>
      dumpValueLines maxKey maxVal indent k value Option.none ++
        dumpPrint maxKey maxVal rest indent false
termination_by structural data _ _ => data

/-- The non-first top-level entries, each preceded by a blank line. -/
def dumpPrintTopRest (maxKey maxVal : Nat) :
    List (String × PyVal) → Nat → List String
  | [], _ => []
  | (k, .tuple2 value c) :: rest, indent =>
      "" :: (dumpValueLines maxKey maxVal indent k value c ++
        dumpPrintTopRest maxKey maxVal rest indent)
  | (k, value) :: rest, indent =>
      "" :: (dumpValueLines maxKey maxVal indent k value Option.none ++
        dumpPrintTopRest maxKey maxVal rest indent)
termination_by structural data _ => data

/-- The lines for one unpacked `(key, value, comment)` entry: a bare
`key:` header plus a recursively printed indented block for dict values
(the comment is dropped there, as in the source), a single `scalarLine`
otherwise. -/
def dumpValueLines (maxKey maxVal : Nat) (indent : Nat) (k : String) :
    PyVal → Option String → List String
  | .dict entries, _ =>
      (spaces (indent * 4) ++ k ++ ":") ::
        dumpPrint maxKey maxVal entries (indent + 1) false
  | v, c => [scalarLine maxKey maxVal indent k v c]
termination_by structural v _ => v
end

/-- The key-column width: `max(len(" " * (indent * 4) + key + ":") for
… in all_rows)`, `none` when `all_rows` is empty (Python's `max()` raises
`ValueError` there). -/
def dumpKeyWidth (data : List (String × PyVal)) : Option Nat :=
  pymax ((_gather_all_keys_values data 0).map
    (fun r => (spaces (r.1 * 4) ++ r.2.1 ++ ":").length))

/-- The comment-column width: the longest commented value, `0` when no row
carries a comment. -/
def dumpCommentWidth (data : List (String × PyVal)) : Nat :=
  (pymax ((_gather_comment_rows data 0).map
    (fun r => r.2.2.1.length))).getD 0

/-- `_dump_yaml_with_comment_alignment(data)`: `none` models the
`ValueError` that Python's `max()` raises on an empty document. -/
def _dump_yaml_with_comment_alignment (data : List (String × PyVal)) :
    Option String :=
  match dumpKeyWidth data with
  | Option.none => Option.none
  | some maxKey =>
      some (String.intercalate "\n"
        (dumpPrint maxKey (dumpCommentWidth data) data 0 true))

/-! ## The concrete models declared in the module -/

/-- `class TestConfig(BaseModel): hi: str = "doei"`. -/
def TestConfig : PyModel :=
  .mk "TestConfig" [.mk "hi" .strT (some (.str "doei")) Option.none]

/-- `class ProgramConfig(BaseModel)`: the single model field
`output_folder_choice` (the leading-underscore attribute and the two
properties are not model fields). -/
def ProgramConfig : PyModel :=
  .mk "ProgramConfig"
    [.mk "output_folder_choice" .strT (some (.str "DATE"))
      (some "Custom output folder. Use \x27DATE\x27 for fDD-MM-YYYY__HH-MM-SS.")]

/-- `class LoggerConfig(BaseModel)`. -/
def LoggerConfig : PyModel :=
  .mk "LoggerConfig"
    [.mk "level"
        (.literalT ["DEBUG", "INFO", "WARNING", "ERROR", "CRITICAL"])
        (some (.str "INFO"))
        (some "Logging level. One of: DEBUG, INFO, WARNING, ERROR, CRITICAL."),
     .mk "config_file" .strT (some (.str "config.json"))
        (some "Path to the logging configuration file.")]

/-- `class WalletConfig(BaseModel)`. -/
def WalletConfig : PyModel :=
  .mk "WalletConfig"
    [.mk "LABEL" .secretStr Option.none Option.none,
     .mk "token" .strT (some (.str "hoi"))
        (some "The token for the wallet. Default is \x27hoi\x27."),
     .mk "retry" .intT (some (.int 3299)) Option.none,
     .mk "test" (.modelT TestConfig) Option.none Option.none]

/-- `class BrokerConfig(BaseModel)`. -/
def BrokerConfig : PyModel :=
  .mk "BrokerConfig"
    [.mk "API_KEY" .secretStr Option.none Option.none,
     .mk "API_SECRET" .secretStr Option.none Option.none,
     .mk "base_url" .strT Option.none Option.none,
     .mk "wallet_map" (.dictT .strT .strT) Option.none Option.none]

/-- `class Settings(BaseSettings)`: the four configuration sections. -/
def Settings : PyModel :=
  .mk "Settings"
    [.mk "program_config" (.modelT ProgramConfig) Option.none Option.none,
     .mk "logger_config" (.modelT LoggerConfig) Option.none Option.none,
     .mk "wallet_config" (.modelT WalletConfig) Option.none Option.none,
     .mk "broker_config" (.modelT BrokerConfig) Option.none Option.none]

/-! ## Source precedence (`Settings.settings_customise_sources`)

`settings_customise_sources` returns the tuple
`(YamlConfigSettingsSource(...), env_settings, dotenv_settings,
file_secret_settings, init_settings)`.  Under pydantic-settings, the
sources of that tuple are queried in order and the FIRST source supplying a
field wins (the library deep-merges `reversed(sources)`, so an earlier
source overwrites a later one); a field no source supplies falls back to
the schema default.  Each source is embedded as the partial field
assignment it contributes. -/

/-- The source order returned by `Settings.settings_customise_sources`:
the YAML document first, then environment variables, the `.env` file,
secret files, and `init` keyword arguments last. -/
def settings_customise_sources (yaml env_settings dotenv_settings
    file_secret_settings init_settings : List (String × α)) :
    List (List (String × α)) :=
  [yaml, env_settings, dotenv_settings, file_secret_settings, init_settings]

/-- Resolution of one field against the ordered source list: the first
source that supplies the field wins; otherwise the schema default is
used. -/
def resolveField (sources : List (List (String × α))) (k : String)
    (dflt : Option α) : Option α :=
  match sources.findSome? (fun s => dictLookup s k) with
  | some v => some v
  | Option.none => dflt

/-! ## Schema-document reconciliation (top-level shape check) -/

/-- The `StructureMismatch` error payload: the schema keys the document is
missing, and the document keys the schema does not declare. -/
structure StructureMismatch where
  missing : List String
  extra : List String

/-- Modelled from the spec: the top-level shape check of `reconcile`
(spec 4.3).  The reconciler itself is realized by the pydantic validation
engine invoked from `get_settings`; no reconciliation code exists in the
repository sources, so the check is taken from the spec's words:
`missing = schema_keys − doc_keys`, `extra = doc_keys − schema_keys`,
failure exactly when the two key sets differ, both sets reported
together. -/
def reconcile_shape (schema_keys doc_keys : List String) :
    Except StructureMismatch Unit :=
  let missing := schema_keys.filter (fun k => !(doc_keys.contains k))
  let extra := doc_keys.filter (fun k => !(schema_keys.contains k))
  if missing.isEmpty && extra.isEmpty then .ok ()
  else .error ⟨missing, extra⟩

/-! ## Entrypoint: `print_yaml_and_env` and `get_settings`

Printing is modelled by accumulating one string per Python `print(...)`
call.  `get_settings` is parameterised by the outcome of `Settings()`
(successful construction, or the validation error text), since that call is
the pydantic engine plus file input. -/

/-- `print_yaml_and_env(Settings)`: the chunks printed, in order.  `none`
propagates a failure of the YAML renderer (which cannot happen for a
non-empty model, see `c7`). -/
def print_yaml_and_env (S : PyModel) : Option (List String) :=
  let yaml_dict := _generate_yaml_for_model S true
  (_dump_yaml_with_comment_alignment yaml_dict).map fun dumped =>
    let env_dict := _generate_env_for_model S ""
    "\n======================== config.yaml structure ========================\n"
      :: dumped
      :: "\n======================== .env structure ========================\n"
      :: (env_dict.map (fun p => p.1 ++ "=" ++ p.2) ++ ["\n\n"])

/-- `get_settings()`: on success the settings object is returned and
nothing is printed; on failure the corrective guidance and the underlying
error are printed and the same exception is re-raised. -/
def get_settings (load : Except String α) :
    Option (List String × Except String α) :=
  match load with
  | .ok s => some ([], .ok s)
  | .error e =>
      (print_yaml_and_env Settings).map fun chunks =>
        ("\n[ERROR] Could not load settings! Please check your config.yaml and .env files."
            :: "Make sure your .yaml and .env are structured like this:\n"
            :: (chunks ++ ["\n[Exception details]:", e]),
         .error e)

/-! ## Specification-side definitions

These definitions transcribe the SPEC's wording (not the code); the
refinement theorems below compare them with the embedded source
functions. -/

mutual
/-- Spec 4.4, transcribed: the flat projection contributes, per field, the
upper-cased `prefix + field_name` key with `"<SECRET>"` for secret fields,
the recursive projection (delimiter appended) for nested schemas, a sample
JSON literal for `*JSON`-named fields, and nothing otherwise; the
per-field results are concatenated (flat keys are assumed unique, spec 4.4
invariant). -/
def project_spec_fields : List PyField → String → List (String × String)
  | [], _ => []
  | .mk fname ann dflt desc :: fs, pre =>
    let flat_key := pyUpper (pre ++ fname)
    (if _is_secret_field (.mk fname ann dflt desc) then
      [(flat_key, "<SECRET>")]
     else
      match ann with
      | .modelT sub => project_spec sub (flat_key ++ "__")
      | _ =>
          if pyEndsWith (pyUpper fname) "JSON" then [(flat_key, jsonSample)]
          else []) ++ project_spec_fields fs pre
termination_by structural fs _ => fs

/-- Spec 4.4 projection of a whole model. -/
def project_spec : PyModel → String → List (String × String)
  | .mk _ fields, pre => project_spec_fields fields pre
termination_by structural m _ => m
end

/-- Claim C5's classifier, transcribed: a field is secret iff its direct
type is the secret-string kind, or — after unwrapping one level of
optional/union — some alternative is the secret-string kind. -/
def secretSpecClaim (f : PyField) : Prop :=
  f.ann = .secretStr ∨ ∃ args, f.ann = .union args ∧ PyType.secretStr ∈ args

/-- The amended classifier: a field is secret iff its direct type is the
secret-string kind, or its type is a subscripted generic
(union/optional, mapping or sequence) with the secret-string kind among
its type arguments. -/
def secretSpecAmended (f : PyField) : Prop :=
  f.ann = .secretStr ∨
    ∃ args,
      (f.ann = .union args ∨
       (∃ k v, f.ann = .dictT k v ∧ args = [k, v]) ∨
       (∃ t, f.ann = .listT t ∧ args = [t])) ∧
      PyType.secretStr ∈ args

/-- The entry value `_generate_yaml_for_model` computes for one non-secret
field: declared default, else synthesized sample. -/
def yamlValueOf (f : PyField) : PyVal :=
  match f.dflt with
  | some d => d
  | Option.none => _sample_value_for_type f.ann

/-- The YAML template of a field list written as a plain concatenation of
per-field entries (what `yamlFields` produces when field names are
unique). -/
def yaml_entries_spec : List PyField → Bool → List (String × PyVal)
  | [], _ => []
  | f :: fs, for_docs =>
    (if _is_secret_field f then []
     else [(f.name,
            if for_docs then PyVal.tuple2 (yamlValueOf f) f.description
            else yamlValueOf f)]) ++ yaml_entries_spec fs for_docs

/-- Column (0-based) of the first `:` of a line. -/
def colonCol (s : String) : Option Nat :=
  s.data.findIdx? (fun c => c == ':')

/-! ## Dictionary lemmas -/

theorem dictInsert_fresh (d : List (String × α)) (k : String) (v : α)
    (h : ∀ p ∈ d, p.1 ≠ k) : dictInsert d k v = d ++ [(k, v)] := by
  have hany : d.any (fun p => p.1 == k) = false := by
    simp only [List.any_eq_false, beq_iff_eq]
    exact h
  simp [dictInsert, hany]

theorem mem_dictInsert {d : List (String × α)} {k : String} {v : α}
    {p : String × α} (h : p ∈ dictInsert d k v) : p ∈ d ∨ p = (k, v) := by
  unfold dictInsert at h
  by_cases hc : d.any (fun q => q.1 == k) = true
  · rw [if_pos hc] at h
    obtain ⟨q, hq, hq2⟩ := List.mem_map.mp h
    by_cases h2 : (q.1 == k) = true
    · right; simp only [h2, if_true] at hq2; exact hq2.symm
    · left; simp only [h2, if_false] at hq2; exact hq2 ▸ hq
  · rw [if_neg hc] at h
    rcases List.mem_append.mp h with h | h
    · exact .inl h
    · exact .inr (by simpa using h)

theorem keys_dictInsert (d : List (String × α)) (k : String) (v : α) :
    (dictInsert d k v).map Prod.fst ⊆ d.map Prod.fst ++ [k] := by
  intro x hx
  unfold dictInsert at hx
  by_cases hc : d.any (fun q => q.1 == k) = true
  · rw [if_pos hc] at hx
    rw [List.map_map] at hx
    obtain ⟨q, hq, hq2⟩ := List.mem_map.mp hx
    by_cases h2 : (q.1 == k) = true
    · simp only [Function.comp, h2, if_true] at hq2
      simp [← hq2]
    · simp only [Function.comp, h2, if_false] at hq2
      simp only [List.mem_append, List.mem_map]
      exact .inl ⟨q, hq, hq2⟩
  · rw [if_neg hc] at hx
    simpa using hx

theorem dictUnion_nil (d : List (String × α)) : dictUnion d [] = d := rfl

theorem dictUnion_cons (d : List (String × α)) (k : String) (v : α)
    (t : List (String × α)) :
    dictUnion d ((k, v) :: t) = dictUnion (dictInsert d k v) t := rfl

theorem dictUnion_fresh :
    ∀ (e d : List (String × α)),
      (∀ p ∈ e, ∀ q ∈ d, q.1 ≠ p.1) → (e.map Prod.fst).Nodup →
      dictUnion d e = d ++ e := by
  intro e
  induction e with
  | nil => intro d _ _; simp [dictUnion_nil]
  | cons x t ih =>
    intro d hd hn
    obtain ⟨k, v⟩ := x
    rw [dictUnion_cons,
        dictInsert_fresh d k v (fun q hq => hd (k, v) (.head t) q hq),
        ih (d ++ [(k, v)]) ?_ (by simpa using hn.of_cons)]
    · simp
    · intro p hp q hq
      rcases List.mem_append.mp hq with hq | hq
      · exact hd p (.tail _ hp) q hq
      · have : q = (k, v) := by simpa using hq
        subst this
        simp only [List.map_cons, List.nodup_cons, List.mem_map] at hn
        intro hkp
        exact hn.1 ⟨p, hp, hkp.symm⟩

theorem dictLookup_of_nodup_mem :
    ∀ (l : List (String × α)) (k : String) (v : α),
      (l.map Prod.fst).Nodup → (k, v) ∈ l → dictLookup l k = some v := by
  intro l
  induction l with
  | nil => intro k v _ hm; cases hm
  | cons x t ih =>
    intro k v hn hm
    obtain ⟨k', v'⟩ := x
    rcases List.mem_cons.mp hm with h | h
    · obtain ⟨rfl, rfl⟩ := Prod.mk.injEq .. ▸ h
      simp [dictLookup, List.find?]
    · have hk : k' ≠ k := by
        simp only [List.map_cons, List.nodup_cons, List.mem_map] at hn
        intro hkk
        exact hn.1 ⟨(k, v), h, by simp [hkk]⟩
      have : ((k', v').1 == k) = false := by simpa using hk
      simp only [dictLookup, List.find?, this]
      exact ih k v (by simpa using (List.nodup_cons.mp (by simpa using hn)).2) h

/-! ## Maximum lemmas (Python `max`) -/

theorem le_foldl_max :
    ∀ (xs : List Nat) (a : Nat),
      a ≤ xs.foldl Nat.max a ∧ ∀ y ∈ xs, y ≤ xs.foldl Nat.max a := by
  intro xs
  induction xs with
  | nil => intro a; exact ⟨le_rfl, by simp⟩
  | cons x t ih =>
    intro a
    have h := ih (Nat.max a x)
    refine ⟨le_trans (Nat.le_max_left a x) h.1, ?_⟩
    intro y hy
    rcases List.mem_cons.mp hy with rfl | hy
    · exact le_trans (Nat.le_max_right a y) h.1
    · exact h.2 y hy

theorem pymax_le {l : List Nat} {m : Nat} (h : pymax l = some m) :
    ∀ x ∈ l, x ≤ m := by
  match l, h with
  | x :: xs, h =>
    have hm : m = xs.foldl Nat.max x := by
      simpa [pymax] using h.symm
    intro y hy
    subst hm
    rcases List.mem_cons.mp hy with rfl | hy
    · exact (le_foldl_max xs y).1
    · exact (le_foldl_max xs x).2 y hy

/-! ## Claim C4 — collection samples -/

/-- C4, counterexample: for a `Dict[str, str]` field the synthesizer does
NOT return the one-entry documentation literal `{"str": "str"}` the claim
states — the source returns a two-entry literal. -/
theorem c4_counterexample :
    _sample_value_for_type (.dictT .strT .strT) ≠
      PyVal.str "\x7b\"str\": \"str\"\x7d" := by
  intro h
  rw [show _sample_value_for_type (.dictT .strT .strT) =
        PyVal.str strStrSample from rfl] at h
  injection h with h
  exact absurd h (by decide)

/-- C4, amended: for a `Dict[str, str]` field the synthesizer returns
exactly the TWO-entry documentation literal `{"str": "str", "str": "str"}`
(a single display string, not a real mapping), and for a `List[int]` field
it returns the one-element list `[0]`. -/
theorem c4_amended_collection_samples :
    _sample_value_for_type (.dictT .strT .strT) =
        PyVal.str "\x7b\"str\": \"str\", \"str\": \"str\"\x7d" ∧
    _sample_value_for_type (.listT .intT) = PyVal.list [PyVal.int 0] :=
  ⟨rfl, rfl⟩

/-! ## Claim C7 — renderer totality -/

theorem gather_cons (k : String) (v : PyVal) (rest : List (String × PyVal))
    (indent : Nat) :
    ∃ r t, _gather_all_keys_values ((k, v) :: rest) indent = r :: t := by
  cases v with
  | tuple2 v' c => cases v' <;> exact ⟨_, _, rfl⟩
  | _ => exact ⟨_, _, rfl⟩

/-- C7, counterexample: the renderer is NOT total — on the empty document
Python's `max()` over the empty row list raises `ValueError` (modelled by
`Option.none`). -/
theorem c7_counterexample :
    _dump_yaml_with_comment_alignment [] = Option.none := rfl

/-- C7, amended: the renderer returns a text result for every NON-empty
template document (arbitrary nesting, values with or without comments);
only the empty document makes it fail. -/
theorem c7_amended_total_on_nonempty (data : List (String × PyVal))
    (h : data ≠ []) :
    ∃ s, _dump_yaml_with_comment_alignment data = some s := by
  match data, h with
  | (k, v) :: rest, _ =>
    obtain ⟨r, t, hg⟩ := gather_cons k v rest 0
    have hw : ∃ m, dumpKeyWidth ((k, v) :: rest) = some m := by
      rw [dumpKeyWidth, hg]
      exact ⟨_, rfl⟩
    obtain ⟨m, hm⟩ := hw
    rw [_dump_yaml_with_comment_alignment, hm]
    exact ⟨_, rfl⟩

/-- C7 witness. -/
theorem c7_amended_total_on_nonempty_witness :
    ∃ s, _dump_yaml_with_comment_alignment [("a", PyVal.int 1)] = some s :=
  c7_amended_total_on_nonempty [("a", PyVal.int 1)] (List.cons_ne_nil _ _)

/-! ## Claim C1 — source precedence -/

/-- C1, counterexample: when the YAML document and the environment both
supply the same field, the merged value is the YAML document's value, not
the environment's — `settings_customise_sources` lists the YAML source
first and pydantic-settings gives the first source the highest priority. -/
theorem c1_counterexample :
    resolveField
        (settings_customise_sources
          [("wallet_config", "from-config-yaml")]
          [("wallet_config", "from-environment")] [] [] [])
        "wallet_config" Option.none = some "from-config-yaml" ∧
      ("from-config-yaml" : String) ≠ "from-environment" :=
  ⟨rfl, by decide⟩

/-- C1, amended: precedence is hierarchical document (config.yaml) value >
environment value > .env value > secret-file value > init value > schema
default: a field present in the YAML source resolves to the YAML value
regardless of the other sources; the environment value is used only when
the YAML source lacks the field; the schema default only when every source
lacks it. -/
theorem c1_amended_document_precedence
    (yaml envS dotenvS secretsS initS : List (String × α)) (k : String)
    (v : α) (d : Option α) :
    (dictLookup yaml k = some v →
      resolveField (settings_customise_sources yaml envS dotenvS secretsS initS)
        k d = some v) ∧
    (dictLookup yaml k = Option.none → dictLookup envS k = some v →
      resolveField (settings_customise_sources yaml envS dotenvS secretsS initS)
        k d = some v) ∧
    (dictLookup yaml k = Option.none → dictLookup envS k = Option.none →
      dictLookup dotenvS k = Option.none → dictLookup secretsS k = Option.none →
      dictLookup initS k = Option.none →
      resolveField (settings_customise_sources yaml envS dotenvS secretsS initS)
        k d = d) := by
  refine ⟨fun h1 => ?_, fun h1 h2 => ?_, fun h1 h2 h3 h4 h5 => ?_⟩
  · simp [resolveField, settings_customise_sources, List.findSome?, h1]
  · simp [resolveField, settings_customise_sources, List.findSome?, h1, h2]
  · simp [resolveField, settings_customise_sources, List.findSome?,
      h1, h2, h3, h4, h5]

/-- C1 witness. -/
theorem c1_amended_document_precedence_witness :
    resolveField
        (settings_customise_sources [("k", "y")] [("k", "e")] [] [] [])
        "k" Option.none = some "y" ∧
    resolveField (settings_customise_sources [] [("k", "e")] [] [] [])
        "k" Option.none = some "e" ∧
    resolveField (settings_customise_sources ([] : List (String × String)) [] [] [] [])
        "k" (some "default") = some "default" :=
  ⟨(c1_amended_document_precedence [("k", "y")] [("k", "e")] [] [] []
      "k" "y" Option.none).1 rfl,
   (c1_amended_document_precedence [] [("k", "e")] [] [] []
      "k" "e" Option.none).2.1 rfl rfl,
   (c1_amended_document_precedence [] [] [] [] []
      "k" "unused" (some "default")).2.2 rfl rfl rfl rfl rfl⟩

/-! ## Claim C2 — structure mismatch -/

/-- C2: the top-level shape check (modelled from the spec, see
`reconcile_shape`) fails exactly when the key sets differ, reporting
`missing = schema_keys − doc_keys` and `extra = doc_keys − schema_keys`
together; on schema keys `{a,b,c}` and document keys `{a,c,d}` it reports
`missing = {b}`, `extra = {d}`. -/
theorem c2_structure_mismatch :
    reconcile_shape ["a", "b", "c"] ["a", "c", "d"] =
        .error ⟨["b"], ["d"]⟩ ∧
    ∀ sk dk : List String,
      (∀ mres, reconcile_shape sk dk = .error mres →
        (∀ k, k ∈ mres.missing ↔ (k ∈ sk ∧ k ∉ dk)) ∧
        (∀ k, k ∈ mres.extra ↔ (k ∈ dk ∧ k ∉ sk))) ∧
      (reconcile_shape sk dk = .ok () ↔
        ((∀ k ∈ sk, k ∈ dk) ∧ (∀ k ∈ dk, k ∈ sk))) := by
  refine ⟨rfl, fun sk dk => ⟨fun mres hm => ?_, ?_⟩⟩
  · unfold reconcile_shape at hm
    by_cases hc : ((sk.filter (fun k => !(dk.contains k))).isEmpty &&
        (dk.filter (fun k => !(sk.contains k))).isEmpty) = true
    · rw [if_pos hc] at hm; cases hm
    · rw [if_neg hc] at hm
      injection hm with hm
      subst hm
      constructor
      · intro k
        simp [List.mem_filter, List.elem_iff]
      · intro k
        simp [List.mem_filter, List.elem_iff]
  · unfold reconcile_shape
    by_cases hc : ((sk.filter (fun k => !(dk.contains k))).isEmpty &&
        (dk.filter (fun k => !(sk.contains k))).isEmpty) = true
    · rw [if_pos hc]
      simp only [Bool.and_eq_true, List.isEmpty_iff, List.filter_eq_nil_iff] at hc
      simp only [true_iff]
      constructor
      · intro k hk
        by_contra hkd
        exact absurd (by simpa [List.elem_iff] using hc.1 k hk) hkd
      · intro k hk
        by_contra hks
        exact absurd (by simpa [List.elem_iff] using hc.2 k hk) hks
    · rw [if_neg hc]
      simp only [Bool.and_eq_true, List.isEmpty_iff, List.filter_eq_nil_iff] at hc
      constructor
      · intro h; cases h
      · intro h
        exfalso
        apply hc
        constructor
        · intro k hk
          simpa [List.elem_iff] using h.1 k hk
        · intro k hk
          simpa [List.elem_iff] using h.2 k hk

/-- C2 witness. -/
theorem c2_structure_mismatch_witness :
    ("b" ∈ (StructureMismatch.mk ["b"] ["d"]).missing ↔
      ("b" ∈ ["a", "b", "c"] ∧ "b" ∉ ["a", "c", "d"])) ∧
    ("d" ∈ (StructureMismatch.mk ["b"] ["d"]).extra ↔
      ("d" ∈ ["a", "c", "d"] ∧ "d" ∉ ["a", "b", "c"])) := by
  have h := c2_structure_mismatch
  have h2 := (h.2 ["a", "b", "c"] ["a", "c", "d"]).1 ⟨["b"], ["d"]⟩ h.1
  exact ⟨h2.1 "b", h2.2 "d"⟩

/-! ## Claim C5 — the secret classifier -/

theorem isSecretStrType_iff (t : PyType) :
    isSecretStrType t = true ↔ t = .secretStr := by
  cases t <;> simp [isSecretStrType]

theorem any_isSecretStr_iff (l : List PyType) :
    l.any isSecretStrType = true ↔ PyType.secretStr ∈ l := by
  rw [List.any_eq_true]
  constructor
  · rintro ⟨x, hx, hxs⟩
    rwa [(isSecretStrType_iff x).mp hxs] at hx
  · intro h
    exact ⟨_, h, rfl⟩

theorem _is_secret_field_eq (n : String) (a : PyType) (d : Option PyVal)
    (ds : Option String) :
    _is_secret_field (.mk n a d ds) =
      (isSecretStrType a || (hasOrigin a && (typeArgs a).any isSecretStrType)) := by
  cases a <;> rfl

/-- C5, counterexample: `_is_secret_field` also classifies as secret a
field whose declared type is `Dict[str, SecretStr]` — a mapping, not the
secret-string kind itself nor an optional/union — so the claim's "if and
only if" fails. -/
theorem c5_counterexample :
    _is_secret_field
        (.mk "wallet_map" (.dictT .strT .secretStr) Option.none Option.none)
      = true ∧
    ¬ secretSpecClaim
        (.mk "wallet_map" (.dictT .strT .secretStr) Option.none Option.none) := by
  refine ⟨rfl, ?_⟩
  rintro (h | ⟨args, h, _⟩) <;> simp [PyField.ann] at h

/-- C5, amended: `_is_secret_field` returns true iff the field's direct
declared type is the secret-string kind, or the declared type is a
subscripted generic — optional/union, mapping or sequence — with the
secret-string kind among its type arguments; in particular
`Optional[SecretStr]` is classified secret, and a field whose type is a
nested schema (even one containing secret fields) is not itself classified
secret. -/
theorem c5_amended_secret_classifier :
    (∀ f : PyField, _is_secret_field f = true ↔ secretSpecAmended f) ∧
    (∀ (n : String) (d : Option PyVal) (ds : Option String),
      _is_secret_field (.mk n (.union [.secretStr, .noneT]) d ds) = true) ∧
    (∀ (n : String) (d : Option PyVal) (ds : Option String) (m : PyModel),
      _is_secret_field (.mk n (.modelT m) d ds) = false) := by
  refine ⟨fun f => ?_, fun n d ds => rfl, fun n d ds m => rfl⟩
  obtain ⟨n, a, d, ds⟩ := f
  rw [_is_secret_field_eq]
  cases a <;>
    simp [isSecretStrType, hasOrigin, typeArgs, any_isSecretStr_iff,
      isSecretStrType_iff, secretSpecAmended, PyField.ann]
  · constructor
    · rintro ⟨x, hx, hxs⟩
      exact (isSecretStrType_iff x).mp hxs ▸ hx
    · intro h
      exact ⟨_, h, rfl⟩
  · rename_i key val
    constructor
    · rintro (h | h)
      · have hk := (isSecretStrType_iff _).mp h
        subst hk
        exact ⟨_, ⟨_, _, ⟨rfl, rfl⟩, rfl⟩, by simp⟩
      · have hv := (isSecretStrType_iff _).mp h
        subst hv
        exact ⟨_, ⟨_, _, ⟨rfl, rfl⟩, rfl⟩, by simp⟩
    · rintro ⟨args, ⟨k, v, ⟨rfl, rfl⟩, rfl⟩, hmem⟩
      rcases List.mem_cons.mp hmem with h | h
      · left
        exact (isSecretStrType_iff key).mpr h.symm
      · right
        have hv : PyType.secretStr = val := by simpa using h
        exact (isSecretStrType_iff val).mpr hv.symm
  · constructor
    · intro h
      exact ((isSecretStrType_iff _).mp h).symm
    · intro h
      exact (isSecretStrType_iff _).mpr h.symm

/-! ## Claim C6 — failure path of `get_settings` -/

/-- C6: whenever loading fails, `get_settings` prints the corrective
guidance — the expected config.yaml block (header and rendered template)
and the expected .env block (header and `KEY=value` lines) — followed by
the underlying error text, and returns the SAME error to the caller (the
result is `.error e`, never a substituted default `Settings`). -/
theorem c6_failure_path (α : Type) (e : String) :
    ∃ out,
      get_settings (α := α) (.error e) = some (out, .error e) ∧
      out[2]? =
        some "\n======================== config.yaml structure ========================\n" ∧
      (∃ d, _dump_yaml_with_comment_alignment
          (_generate_yaml_for_model Settings true) = some d ∧
        out[3]? = some d) ∧
      out[4]? =
        some "\n======================== .env structure ========================\n" ∧
      out[5]? = some "WALLET_CONFIG__LABEL=<SECRET>" ∧
      out[6]? = some "BROKER_CONFIG__API_KEY=<SECRET>" ∧
      out[7]? = some "BROKER_CONFIG__API_SECRET=<SECRET>" ∧
      out.getLast? = some e := by
  exact ⟨_, rfl, rfl, ⟨_, rfl, rfl⟩, rfl, rfl, rfl, rfl, rfl⟩

/-! ## The flat projection agrees with the spec's projection

`envFields` threads a Python dict through `dictInsert`/`dictUnion`; when
the produced flat keys are pairwise distinct (the spec 4.4 uniqueness
invariant) this equals the plain concatenation `project_spec_fields`.  The
two step lemmas handle one fresh insertion and one fresh merged
sub-projection. -/

theorem insert_step
    (fs : List PyField) (pre : String) (result : List (String × String))
    (key val : String) (specfs : List (String × String))
    (hIH : ∀ r, (specfs.map Prod.fst).Nodup →
        (∀ p ∈ r, p.1 ∉ specfs.map Prod.fst) →
        envFields fs pre r = r ++ specfs)
    (h1 : (((key, val) :: specfs).map Prod.fst).Nodup)
    (h2 : ∀ p ∈ result, p.1 ∉ ((key, val) :: specfs).map Prod.fst) :
    envFields fs pre (dictInsert result key val) =
      result ++ ((key, val) :: specfs) := by
  have hfresh : ∀ p ∈ result, p.1 ≠ key := by
    intro p hp
    have := h2 p hp
    simp only [List.map_cons, List.mem_cons, not_or] at this
    exact this.1
  rw [dictInsert_fresh _ _ _ hfresh]
  simp only [List.map_cons, List.nodup_cons] at h1
  rw [hIH (result ++ [(key, val)]) h1.2 ?_]
  · simp
  · intro p hp
    rcases List.mem_append.mp hp with hp | hp
    · have := h2 p hp
      simp only [List.map_cons, List.mem_cons, not_or] at this
      exact this.2
    · have hpe : p = (key, val) := by simpa using hp
      subst hpe
      exact h1.1

theorem union_step
    (fs : List PyField) (pre : String) (result : List (String × String))
    (contrib specfs : List (String × String))
    (hIH : ∀ r, (specfs.map Prod.fst).Nodup →
        (∀ p ∈ r, p.1 ∉ specfs.map Prod.fst) →
        envFields fs pre r = r ++ specfs)
    (h1 : ((contrib ++ specfs).map Prod.fst).Nodup)
    (h2 : ∀ p ∈ result, p.1 ∉ (contrib ++ specfs).map Prod.fst) :
    envFields fs pre (dictUnion result contrib) =
      result ++ (contrib ++ specfs) := by
  rw [List.map_append, List.nodup_append] at h1
  rw [dictUnion_fresh contrib result ?_ h1.1]
  · rw [hIH (result ++ contrib) h1.2.1 ?_]
    · simp
    · intro p hp
      rcases List.mem_append.mp hp with hp | hp
      · have := h2 p hp
        simp only [List.map_append, List.mem_append, not_or] at this
        exact this.2
      · have : p.1 ∈ contrib.map Prod.fst := List.mem_map_of_mem _ hp
        exact fun hmem => h1.2.2 this hmem
  · intro p hp q hq
    have hq2 := h2 q hq
    simp only [List.map_append, List.mem_append, not_or] at hq2
    intro hqp
    exact hq2.1 (hqp ▸ List.mem_map_of_mem Prod.fst hp)

/-- Unfolding of `project_spec_fields` at a cons cell. -/
theorem project_spec_fields_cons (fname : String) (ann : PyType)
    (dflt : Option PyVal) (desc : Option String) (fs : List PyField)
    (pre : String) :
    project_spec_fields (.mk fname ann dflt desc :: fs) pre
      = (if _is_secret_field (.mk fname ann dflt desc) then
          [(pyUpper (pre ++ fname), "<SECRET>")]
         else
          match ann with
          | .modelT sub => project_spec sub (pyUpper (pre ++ fname) ++ "__")
          | _ =>
              if pyEndsWith (pyUpper fname) "JSON" then
                [(pyUpper (pre ++ fname), jsonSample)]
              else []) ++ project_spec_fields fs pre := by
  rw [project_spec_fields.eq_def]

/-- Unfolding of `envFields` at a cons cell. -/
theorem envFields_cons (fname : String) (ann : PyType)
    (dflt : Option PyVal) (desc : Option String) (fs : List PyField)
    (pre : String) (result : List (String × String)) :
    envFields (.mk fname ann dflt desc :: fs) pre result
      = envFields fs pre
          (if _is_secret_field (.mk fname ann dflt desc) then
            dictInsert result (pyUpper (pre ++ fname)) "<SECRET>"
           else
            match ann with
            | .modelT sub =>
                dictUnion result
                  (_generate_env_for_model sub (pyUpper (pre ++ fname) ++ "__"))
            | _ =>
                if pyEndsWith (pyUpper fname) "JSON" then
                  dictInsert result (pyUpper (pre ++ fname)) jsonSample
                else result) := by
  cases ann <;> simp only [envFields]

/-- Unfolding of `envFields` at a non-secret, non-nested field: the `*JSON`
rule applies, otherwise the field contributes nothing. -/
theorem envFields_cons_default (fname : String) (ann : PyType)
    (dflt : Option PyVal) (desc : Option String) (fs : List PyField)
    (pre : String) (result : List (String × String))
    (hsec : _is_secret_field (.mk fname ann dflt desc) = false)
    (hnm : ∀ sub, ann ≠ .modelT sub) :
    envFields (.mk fname ann dflt desc :: fs) pre result
      = envFields fs pre
          (if pyEndsWith (pyUpper fname) "JSON" = true then
            dictInsert result (pyUpper (pre ++ fname)) jsonSample
          else result) := by
  cases ann <;>
    first
      | exact absurd rfl (hnm _)
      | simp [envFields, hsec]

/-- Unfolding of `project_spec_fields` at a non-secret, non-nested
field. -/
theorem project_spec_cons_default (fname : String) (ann : PyType)
    (dflt : Option PyVal) (desc : Option String) (fs : List PyField)
    (pre : String)
    (hsec : _is_secret_field (.mk fname ann dflt desc) = false)
    (hnm : ∀ sub, ann ≠ .modelT sub) :
    project_spec_fields (.mk fname ann dflt desc :: fs) pre
      = (if pyEndsWith (pyUpper fname) "JSON" = true then
          [(pyUpper (pre ++ fname), jsonSample)]
        else []) ++ project_spec_fields fs pre := by
  cases ann <;>
    first
      | exact absurd rfl (hnm _)
      | simp [project_spec_fields, hsec]

/-- One step of `envFields_eq_spec` at a secret field, with the tail
recursion supplied as a hypothesis. -/
theorem secret_case_step (fname : String) (ann : PyType) (dflt : Option PyVal)
    (desc : Option String) (fs : List PyField) (pre : String)
    (result : List (String × String))
    (hsec : _is_secret_field (.mk fname ann dflt desc) = true)
    (hIH : ∀ r, ((project_spec_fields fs pre).map Prod.fst).Nodup →
        (∀ p ∈ r, p.1 ∉ (project_spec_fields fs pre).map Prod.fst) →
        envFields fs pre r = r ++ project_spec_fields fs pre)
    (h1 : ((project_spec_fields (.mk fname ann dflt desc :: fs) pre).map
        Prod.fst).Nodup)
    (h2 : ∀ p ∈ result,
        p.1 ∉ (project_spec_fields (.mk fname ann dflt desc :: fs) pre).map
          Prod.fst) :
    envFields (.mk fname ann dflt desc :: fs) pre result
      = result ++ project_spec_fields (.mk fname ann dflt desc :: fs) pre := by
  rw [project_spec_fields_cons] at h1 h2 ⊢
  rw [envFields_cons]
  simp only [hsec, if_true] at h1 h2 ⊢
  simp only [List.singleton_append] at h1 h2 ⊢
  exact insert_step fs pre result _ _ _ hIH h1 h2

/-- One step of `envFields_eq_spec` at a non-secret nested-model field,
with both recursions supplied as hypotheses. -/
theorem model_case_step (fname : String) (sub : PyModel) (dflt : Option PyVal)
    (desc : Option String) (fs : List PyField) (pre : String)
    (result : List (String × String))
    (hIH : ∀ r, ((project_spec_fields fs pre).map Prod.fst).Nodup →
        (∀ p ∈ r, p.1 ∉ (project_spec_fields fs pre).map Prod.fst) →
        envFields fs pre r = r ++ project_spec_fields fs pre)
    (hIHm : ((project_spec sub (pyUpper (pre ++ fname) ++ "__")).map
          Prod.fst).Nodup →
        _generate_env_for_model sub (pyUpper (pre ++ fname) ++ "__")
          = project_spec sub (pyUpper (pre ++ fname) ++ "__"))
    (h1 : ((project_spec_fields (.mk fname (.modelT sub) dflt desc :: fs)
        pre).map Prod.fst).Nodup)
    (h2 : ∀ p ∈ result,
        p.1 ∉ (project_spec_fields (.mk fname (.modelT sub) dflt desc :: fs)
          pre).map Prod.fst) :
    envFields (.mk fname (.modelT sub) dflt desc :: fs) pre result
      = result ++
          project_spec_fields (.mk fname (.modelT sub) dflt desc :: fs) pre := by
  have hsec' : _is_secret_field (.mk fname (.modelT sub) dflt desc) = false := rfl
  rw [project_spec_fields_cons] at h1 h2 ⊢
  rw [envFields_cons]
  simp only [hsec', Bool.false_eq_true, if_false] at h1 h2 ⊢
  have hsubkeys : ((project_spec sub (pyUpper (pre ++ fname) ++ "__")).map
      Prod.fst).Nodup := by
    rw [List.map_append, List.nodup_append] at h1
    exact h1.1
  rw [hIHm hsubkeys]
  exact union_step fs pre result _ _ hIH h1 h2

/-- One step of `envFields_eq_spec` at a non-secret, non-nested field,
with the tail recursion supplied as a hypothesis. -/
theorem default_case_step (fname : String) (ann : PyType)
    (dflt : Option PyVal) (desc : Option String) (fs : List PyField)
    (pre : String) (result : List (String × String))
    (hsec : _is_secret_field (.mk fname ann dflt desc) = false)
    (hnm : ∀ sub, ann ≠ .modelT sub)
    (hIH : ∀ r, ((project_spec_fields fs pre).map Prod.fst).Nodup →
        (∀ p ∈ r, p.1 ∉ (project_spec_fields fs pre).map Prod.fst) →
        envFields fs pre r = r ++ project_spec_fields fs pre)
    (h1 : ((project_spec_fields (.mk fname ann dflt desc :: fs) pre).map
        Prod.fst).Nodup)
    (h2 : ∀ p ∈ result,
        p.1 ∉ (project_spec_fields (.mk fname ann dflt desc :: fs) pre).map
          Prod.fst) :
    envFields (.mk fname ann dflt desc :: fs) pre result
      = result ++ project_spec_fields (.mk fname ann dflt desc :: fs) pre := by
  rw [project_spec_cons_default fname ann dflt desc fs pre hsec hnm] at h1 h2 ⊢
  rw [envFields_cons_default fname ann dflt desc fs pre result hsec hnm]
  by_cases hjson : pyEndsWith (pyUpper fname) "JSON" = true
  · simp only [if_pos hjson] at h1 h2 ⊢
    simp only [List.singleton_append] at h1 h2 ⊢
    exact insert_step fs pre result _ _ _ hIH h1 h2
  · simp only [if_neg hjson] at h1 h2 ⊢
    simp only [List.nil_append] at h1 h2 ⊢
    exact hIH result h1 h2

mutual
/-- The field loop of `_generate_env_for_model` produces, appended to the
threaded `result`, exactly the spec's concatenated projection — provided
the projection's flat keys are pairwise distinct and fresh for `result`. -/
theorem envFields_eq_spec :
    ∀ (fields : List PyField) (pre : String)
      (result : List (String × String)),
      ((project_spec_fields fields pre).map Prod.fst).Nodup →
      (∀ p ∈ result, p.1 ∉ (project_spec_fields fields pre).map Prod.fst) →
      envFields fields pre result = result ++ project_spec_fields fields pre
  | [], pre, result, _, _ => by
      simp [envFields, project_spec_fields]
  | .mk fname ann dflt desc :: fs, pre, result, h1, h2 => by
    by_cases hsec : _is_secret_field (.mk fname ann dflt desc) = true
    · exact secret_case_step fname ann dflt desc fs pre result hsec
        (fun r => envFields_eq_spec fs pre r) h1 h2
    · have hsec' : _is_secret_field (.mk fname ann dflt desc) = false := by
        simpa using hsec
      cases ann with
      | modelT sub =>
        exact model_case_step fname sub dflt desc fs pre result
          (fun r => envFields_eq_spec fs pre r)
          (fun h => _generate_env_eq_spec sub _ h) h1 h2
      | strT =>
        exact default_case_step fname _ dflt desc fs pre result hsec'
          (fun _ h => PyType.noConfusion h)
          (fun r => envFields_eq_spec fs pre r) h1 h2
      | intT =>
        exact default_case_step fname _ dflt desc fs pre result hsec'
          (fun _ h => PyType.noConfusion h)
          (fun r => envFields_eq_spec fs pre r) h1 h2
      | floatT =>
        exact default_case_step fname _ dflt desc fs pre result hsec'
          (fun _ h => PyType.noConfusion h)
          (fun r => envFields_eq_spec fs pre r) h1 h2
      | boolT =>
        exact default_case_step fname _ dflt desc fs pre result hsec'
          (fun _ h => PyType.noConfusion h)
          (fun r => envFields_eq_spec fs pre r) h1 h2
      | noneT =>
        exact default_case_step fname _ dflt desc fs pre result hsec'
          (fun _ h => PyType.noConfusion h)
          (fun r => envFields_eq_spec fs pre r) h1 h2
      | secretStr =>
        exact default_case_step fname _ dflt desc fs pre result hsec'
          (fun _ h => PyType.noConfusion h)
          (fun r => envFields_eq_spec fs pre r) h1 h2
      | union args =>
        exact default_case_step fname _ dflt desc fs pre result hsec'
          (fun _ h => PyType.noConfusion h)
          (fun r => envFields_eq_spec fs pre r) h1 h2
      | dictT k v =>
        exact default_case_step fname _ dflt desc fs pre result hsec'
          (fun _ h => PyType.noConfusion h)
          (fun r => envFields_eq_spec fs pre r) h1 h2
      | listT t =>
        exact default_case_step fname _ dflt desc fs pre result hsec'
          (fun _ h => PyType.noConfusion h)
          (fun r => envFields_eq_spec fs pre r) h1 h2
      | literalT cs =>
        exact default_case_step fname _ dflt desc fs pre result hsec'
          (fun _ h => PyType.noConfusion h)
          (fun r => envFields_eq_spec fs pre r) h1 h2
      | enumT en ms =>
        exact default_case_step fname _ dflt desc fs pre result hsec'
          (fun _ h => PyType.noConfusion h)
          (fun r => envFields_eq_spec fs pre r) h1 h2
      | other tn =>
        exact default_case_step fname _ dflt desc fs pre result hsec'
          (fun _ h => PyType.noConfusion h)
          (fun r => envFields_eq_spec fs pre r) h1 h2
termination_by structural fields => fields

/-- `_generate_env_for_model` equals the spec's projection under the flat
key uniqueness invariant. -/
theorem _generate_env_eq_spec :
    ∀ (m : PyModel) (pre : String),
      ((project_spec m pre).map Prod.fst).Nodup →
      _generate_env_for_model m pre = project_spec m pre
  | .mk nm fields, pre, h => by
      have h' : ((project_spec_fields fields pre).map Prod.fst).Nodup := by
        simpa [project_spec] using h
      have := envFields_eq_spec fields pre [] h' (by simp)
      simpa [_generate_env_for_model, project_spec] using this
termination_by structural m => m
end

/-! ## Claim C9 — the flat projection refines the spec -/

/-- C9: under the spec's flat-key uniqueness invariant, the code's flat
projection `_generate_env_for_model` is exactly the projection the spec
describes (`project_spec`): upper-cased `prefix + field_name` keys,
recursion with the `__` delimiter appended into non-secret nested models,
the JSON-sample rule for `*JSON` fields, and omission of every other
non-secret, non-nested field. -/
theorem c9_env_projection_refinement (m : PyModel) (pre : String)
    (huniq : ((project_spec m pre).map Prod.fst).Nodup) :
    _generate_env_for_model m pre = project_spec m pre :=
  _generate_env_eq_spec m pre huniq

/-- C9 witness. -/
theorem c9_env_projection_refinement_witness :
    _generate_env_for_model Settings "" = project_spec Settings "" :=
  c9_env_projection_refinement Settings "" (by decide)

/-! ## Claim C3 — secret fields in both projections -/

/-- A secret field always contributes its `<SECRET>` pair to the spec
projection. -/
theorem secret_mem_project_spec :
    ∀ (fields : List PyField) (pre : String) (f : PyField),
      f ∈ fields → _is_secret_field f = true →
      (pyUpper (pre ++ f.name), "<SECRET>") ∈ project_spec_fields fields pre := by
  intro fields
  induction fields with
  | nil => intro pre f h _; cases h
  | cons g fs ih =>
    intro pre f hm hsec
    obtain ⟨gn, ga, gd, gds⟩ := g
    rw [project_spec_fields_cons]
    rcases List.mem_cons.mp hm with rfl | hm
    · rw [if_pos hsec]
      exact List.mem_append_left _ (by simp [PyField.name])
    · exact List.mem_append_right _ (ih pre f hm hsec)

/-- Unfolding of `yamlFields` at a cons cell. -/
theorem yamlFields_cons (fname : String) (ann : PyType)
    (dflt : Option PyVal) (desc : Option String) (fs : List PyField)
    (for_docs : Bool) (result : List (String × PyVal)) :
    yamlFields (.mk fname ann dflt desc :: fs) for_docs result
      = if _is_secret_field (.mk fname ann dflt desc) then
          yamlFields fs for_docs result
        else
          yamlFields fs for_docs
            (dictInsert result fname
              (if for_docs then
                PyVal.tuple2 (yamlValueOf (.mk fname ann dflt desc)) desc
              else yamlValueOf (.mk fname ann dflt desc))) := by
  cases dflt <;> simp only [yamlFields, yamlValueOf, PyField.dflt, PyField.ann]

/-- Keys of the generated YAML template: only names of non-secret fields
(plus whatever the threaded `result` already holds). -/
theorem yamlFields_keys_subset :
    ∀ (fields : List PyField) (for_docs : Bool)
      (result : List (String × PyVal)),
      (yamlFields fields for_docs result).map Prod.fst ⊆
        result.map Prod.fst ++
          (fields.filter (fun g => !(_is_secret_field g))).map PyField.name := by
  intro fields
  induction fields with
  | nil =>
    intro fd result
    simp [yamlFields]
  | cons g fs ih =>
    intro fd result
    obtain ⟨gn, ga, gd, gds⟩ := g
    rw [yamlFields_cons]
    by_cases hsec : _is_secret_field (.mk gn ga gd gds) = true
    · rw [if_pos hsec]
      refine (ih fd result).trans ?_
      have hfe : List.filter (fun g => !(_is_secret_field g))
            (PyField.mk gn ga gd gds :: fs)
          = List.filter (fun g => !(_is_secret_field g)) fs := by
        simp [List.filter_cons, hsec]
      rw [hfe]
      exact List.Subset.refl _
    · rw [if_neg hsec]
      have hsec' : _is_secret_field (.mk gn ga gd gds) = false := by
        simpa using hsec
      refine (ih fd _).trans ?_
      intro x hx
      simp only [List.mem_append] at hx ⊢
      rcases hx with hx | hx
      · have := keys_dictInsert result gn _ hx
        rcases List.mem_append.mp this with h | h
        · exact .inl h
        · right
          have hxg : x = gn := by simpa using h
          subst hxg
          simp [List.filter_cons, hsec', PyField.name]
      · right
        simp only [List.filter_cons, hsec', Bool.not_false, if_true,
          List.map_cons, List.mem_cons]
        exact .inr hx

/-- C3: a field classified secret by `_is_secret_field`, at any nesting
depth (any model and flat-key prefix), (a) appears in the flat/environment
projection under its flattened upper-cased key with the literal value
`"<SECRET>"` — under the spec's flat-key uniqueness invariant — and
(b) is omitted entirely from the hierarchical-document template — under
the data model's field-name uniqueness invariant. -/
theorem c3_secret_projection (m : PyModel) (pre : String) (f : PyField)
    (for_docs : Bool) (hm : f ∈ m.fields) (hsec : _is_secret_field f = true) :
    (((project_spec m pre).map Prod.fst).Nodup →
      dictLookup (_generate_env_for_model m pre) (pyUpper (pre ++ f.name))
        = some "<SECRET>") ∧
    ((m.fields.map PyField.name).Nodup →
      f.name ∉ (_generate_yaml_for_model m for_docs).map Prod.fst) := by
  obtain ⟨nm, fields⟩ := m
  have hmf : f ∈ fields := hm
  constructor
  · intro hnodup
    rw [_generate_env_eq_spec _ _ hnodup]
    have hmem := secret_mem_project_spec fields pre f hmf hsec
    exact dictLookup_of_nodup_mem _ _ _
      (by simpa [project_spec] using hnodup)
      (by simpa [project_spec] using hmem)
  · intro hnames hkeys
    have hkeys' : f.name ∈ (yamlFields fields for_docs []).map Prod.fst := by
      simpa [_generate_yaml_for_model] using hkeys
    have hsub := yamlFields_keys_subset fields for_docs [] hkeys'
    simp only [List.map_nil, List.nil_append] at hsub
    obtain ⟨g, hgf, hgn⟩ := List.mem_map.mp hsub
    have hgfields : g ∈ fields := List.mem_of_mem_filter hgf
    have hgsec := List.of_mem_filter hgf
    have hfg : g = f :=
      List.inj_on_of_nodup_map (by simpa using hnames) hgfields hmf hgn
    rw [hfg] at hgsec
    simp [hsec] at hgsec

/-- C3 witness: the `LABEL` secret of `WalletConfig`, projected at the
nesting prefix `WALLET_CONFIG__`. -/
theorem c3_secret_projection_witness :
    dictLookup (_generate_env_for_model WalletConfig "WALLET_CONFIG__")
        (pyUpper ("WALLET_CONFIG__" ++ "LABEL")) = some "<SECRET>" ∧
    "LABEL" ∉ (_generate_yaml_for_model WalletConfig true).map Prod.fst := by
  have h := c3_secret_projection WalletConfig "WALLET_CONFIG__"
    (.mk "LABEL" .secretStr Option.none Option.none) true
    (List.mem_cons_self _ _) rfl
  exact ⟨h.1 (by decide), h.2 (by decide)⟩

/-! ## Claim C10 — the `for_docs` flag is not propagated -/

theorem yaml_entries_spec_keys_subset :
    ∀ (fields : List PyField) (for_docs : Bool),
      (yaml_entries_spec fields for_docs).map Prod.fst ⊆
        fields.map PyField.name := by
  intro fields
  induction fields with
  | nil => intro fd; simp [yaml_entries_spec]
  | cons g fs ih =>
    intro fd x hx
    simp only [yaml_entries_spec, List.map_append, List.mem_append] at hx
    rcases hx with hx | hx
    · by_cases hsec : _is_secret_field g = true
      · rw [if_pos hsec] at hx
        simp at hx
      · rw [if_neg hsec] at hx
        have hxg : x = g.name := by simpa using hx
        simp [hxg]
    · simp only [List.map_cons, List.mem_cons]
      exact .inr (ih fd hx)

theorem yaml_entries_spec_keys_nodup :
    ∀ (fields : List PyField) (for_docs : Bool),
      (fields.map PyField.name).Nodup →
      ((yaml_entries_spec fields for_docs).map Prod.fst).Nodup := by
  intro fields
  induction fields with
  | nil => intro fd _; simp [yaml_entries_spec]
  | cons g fs ih =>
    intro fd h
    simp only [List.map_cons, List.nodup_cons] at h
    by_cases hsec : _is_secret_field g = true
    · simpa [yaml_entries_spec, hsec] using ih fd h.2
    · have hspec : yaml_entries_spec (g :: fs) fd
          = (g.name,
              if fd then PyVal.tuple2 (yamlValueOf g) g.description
              else yamlValueOf g) :: yaml_entries_spec fs fd := by
        simp [yaml_entries_spec, hsec]
      rw [hspec]
      simp only [List.map_cons, List.nodup_cons]
      exact ⟨fun hmem => h.1 (yaml_entries_spec_keys_subset fs fd hmem),
        ih fd h.2⟩

theorem nonsecret_mem_yaml_entries_spec :
    ∀ (fields : List PyField) (for_docs : Bool) (f : PyField),
      f ∈ fields → _is_secret_field f = false →
      (f.name,
        if for_docs then PyVal.tuple2 (yamlValueOf f) f.description
        else yamlValueOf f) ∈ yaml_entries_spec fields for_docs := by
  intro fields
  induction fields with
  | nil => intro fd f h _; cases h
  | cons g fs ih =>
    intro fd f hm hsec
    simp only [yaml_entries_spec]
    rcases List.mem_cons.mp hm with rfl | hm
    · rw [if_neg (by simp [hsec])]
      exact List.mem_append_left _ (List.mem_cons_self _ _)
    · exact List.mem_append_right _ (ih fd f hm hsec)

/-- The field loop of `_generate_yaml_for_model` produces, appended to the
threaded `result`, exactly the concatenated per-field entries — under the
data model's field-name uniqueness invariant. -/
theorem yamlFields_eq_spec :
    ∀ (fields : List PyField) (for_docs : Bool)
      (result : List (String × PyVal)),
      (fields.map PyField.name).Nodup →
      (∀ p ∈ result, p.1 ∉ (yaml_entries_spec fields for_docs).map Prod.fst) →
      yamlFields fields for_docs result =
        result ++ yaml_entries_spec fields for_docs := by
  intro fields
  induction fields with
  | nil =>
    intro fd result _ _
    simp [yamlFields, yaml_entries_spec]
  | cons g fs ih =>
    intro fd result hn h2
    obtain ⟨gn, ga, gd, gds⟩ := g
    rw [yamlFields_cons]
    simp only [List.map_cons, List.nodup_cons] at hn
    by_cases hsec : _is_secret_field (.mk gn ga gd gds) = true
    · rw [if_pos hsec]
      have hspec : yaml_entries_spec (PyField.mk gn ga gd gds :: fs) fd
          = yaml_entries_spec fs fd := by
        simp [yaml_entries_spec, hsec]
      rw [hspec] at h2 ⊢
      exact ih fd result hn.2 h2
    · rw [if_neg hsec]
      have hsecf : _is_secret_field (.mk gn ga gd gds) = false := by
        simpa using hsec
      have hspec : yaml_entries_spec (PyField.mk gn ga gd gds :: fs) fd
          = (gn,
              if fd then
                PyVal.tuple2 (yamlValueOf (.mk gn ga gd gds)) gds
              else yamlValueOf (.mk gn ga gd gds)) ::
              yaml_entries_spec fs fd := by
        simp [yaml_entries_spec, hsecf, PyField.name, PyField.description]
      rw [hspec] at h2 ⊢
      have hfresh : ∀ p ∈ result, p.1 ≠ gn := by
        intro p hp
        have := h2 p hp
        simp only [List.map_cons, List.mem_cons, not_or] at this
        exact this.1
      rw [dictInsert_fresh _ _ _ hfresh]
      rw [ih fd _ hn.2 ?_]
      · simp
      · intro p hp
        rcases List.mem_append.mp hp with hp | hp
        · have := h2 p hp
          simp only [List.map_cons, List.mem_cons, not_or] at this
          exact this.2
        · have hp1 : p.1 = gn := by
            have : p = (gn,
                if fd then PyVal.tuple2 (yamlValueOf (.mk gn ga gd gds)) gds
                else yamlValueOf (.mk gn ga gd gds)) := by simpa using hp
            rw [this]
          rw [hp1]
          exact fun hmem => hn.1 (yaml_entries_spec_keys_subset fs fd hmem)

/-- In documentation mode every produced entry is a `(value, comment)`
pair. -/
theorem yamlFields_entries_tuple :
    ∀ (fields : List PyField) (result : List (String × PyVal)),
      (∀ e ∈ result, ∃ v c, e.2 = PyVal.tuple2 v c) →
      ∀ e ∈ yamlFields fields true result, ∃ v c, e.2 = PyVal.tuple2 v c := by
  intro fields
  induction fields with
  | nil =>
    intro result h e he
    exact h e (by simpa [yamlFields] using he)
  | cons g fs ih =>
    intro result h e he
    obtain ⟨gn, ga, gd, gds⟩ := g
    rw [yamlFields_cons] at he
    by_cases hsec : _is_secret_field (.mk gn ga gd gds) = true
    · rw [if_pos hsec] at he
      exact ih result h e he
    · rw [if_neg hsec] at he
      simp only [if_true] at he
      refine ih _ ?_ e he
      intro e' he'
      rcases mem_dictInsert he' with he' | he'
      · exact h e' he'
      · exact ⟨_, _, by rw [he']⟩

/-- C10: with `for_docs = False`, every top-level non-secret field maps to
the PLAIN value (declared default, else synthesized sample, with no
`(value, comment)` wrapping at that level); yet a nested-schema field
without a declared default maps to the sub-document synthesized by the
DOCUMENTATION path, whose entries are all `(value, comment)` pairs — the
`for_docs` flag is not propagated through nested synthesis. -/
theorem c10_for_docs_not_propagated (m : PyModel) (f : PyField)
    (hnames : (m.fields.map PyField.name).Nodup) (hm : f ∈ m.fields)
    (hsec : _is_secret_field f = false) :
    dictLookup (_generate_yaml_for_model m false) f.name
      = some (yamlValueOf f) ∧
    (∀ sub, f.ann = .modelT sub → f.dflt = Option.none →
      dictLookup (_generate_yaml_for_model m false) f.name
        = some (.dict (_generate_yaml_for_model sub true)) ∧
      ∀ e ∈ _generate_yaml_for_model sub true, ∃ v c,
        e.2 = PyVal.tuple2 v c) := by
  obtain ⟨nm, fields⟩ := m
  have hmf : f ∈ fields := hm
  have hnames' : (fields.map PyField.name).Nodup := hnames
  have heq : _generate_yaml_for_model (.mk nm fields) false
      = yaml_entries_spec fields false := by
    have := yamlFields_eq_spec fields false [] hnames' (by simp)
    simpa [_generate_yaml_for_model] using this
  have hlook : dictLookup (_generate_yaml_for_model (.mk nm fields) false)
      f.name = some (yamlValueOf f) := by
    rw [heq]
    have hmem := nonsecret_mem_yaml_entries_spec fields false f hmf hsec
    simp only [if_neg (by simp : ¬(False = True))] at hmem
    exact dictLookup_of_nodup_mem _ _ _
      (yaml_entries_spec_keys_nodup fields false hnames') (by simpa using hmem)
  refine ⟨hlook, fun sub hann hdf => ?_⟩
  have hval : yamlValueOf f = PyVal.dict (_generate_yaml_for_model sub true) := by
    rw [yamlValueOf, hdf, hann]
    simp only [_sample_value_for_type]
  constructor
  · rw [hlook, hval]
  · obtain ⟨snm, sfields⟩ := sub
    intro e he
    have he' : e ∈ yamlFields sfields true [] := by
      simpa [_generate_yaml_for_model] using he
    exact yamlFields_entries_tuple sfields [] (by simp) e he'

/-- C10 witness: the `test` field of `WalletConfig`. -/
theorem c10_for_docs_not_propagated_witness :
    dictLookup (_generate_yaml_for_model WalletConfig false) "test"
      = some (PyVal.dict (_generate_yaml_for_model TestConfig true)) := by
  have h := c10_for_docs_not_propagated WalletConfig
    (.mk "test" (.modelT TestConfig) Option.none Option.none)
    (by decide)
    (List.Mem.tail _ (List.Mem.tail _ (List.Mem.tail _ (List.Mem.head _))))
    rfl
  exact (h.2 TestConfig rfl rfl).1

/-! ## Claim C8 — alignment of the rendered template -/

/-- C8, counterexample: in rendered output the `:` does NOT land at one
column within a same-indent sibling group — it trails its key directly
(`a:` at column 5, `bb:` at column 6 for two siblings at indent 1); it is
the VALUES that are aligned, at a single global column. -/
theorem c8_counterexample :
    _dump_yaml_with_comment_alignment
        [("parent", .dict [("a", .int 1), ("bb", .int 2)])]
      = some "parent:\n    a:  1\n    bb: 2" ∧
    colonCol "    a:  1" = some 5 ∧
    colonCol "    bb: 2" = some 6 ∧
    (5 : Nat) ≠ 6 :=
  ⟨rfl, rfl, rfl, by decide⟩

theorem ljust_length (s : String) (w : Nat) (h : s.length ≤ w) :
    (ljust s w).length = w := by
  simp only [ljust, String.length_append]
  have : (String.mk (List.replicate (w - s.length) ' ')).length
      = w - s.length := by
    simp
  omega

/-- The per-entry lines of the printer, with the `(value, comment)`
unpacking applied. -/
def entryLines (maxKey maxVal : Nat) (indent : Nat) :
    String × PyVal → List String
  | (k, .tuple2 value c) => dumpValueLines maxKey maxVal indent k value c
  | (k, value) => dumpValueLines maxKey maxVal indent k value Option.none

theorem intercalate_blank :
    ∀ (bs : List (List String)) (b : List String),
      List.intercalate [""] (b :: bs)
        = b ++ (bs.map (fun x => "" :: x)).flatten := by
  intro bs
  induction bs with
  | nil => intro b; simp [List.intercalate]
  | cons x t ih =>
    intro b
    have hx := ih x
    simp only [List.intercalate] at hx ⊢
    rw [show List.intersperse ([""] : List String) (b :: x :: t)
        = b :: [""] :: List.intersperse [""] (x :: t) from rfl]
    simp only [List.flatten_cons, List.map_cons]
    rw [hx]
    simp

theorem dumpPrintTopRest_eq (maxKey maxVal : Nat) :
    ∀ (rest : List (String × PyVal)) (indent : Nat),
      dumpPrintTopRest maxKey maxVal rest indent
        = (rest.map (fun e => "" :: entryLines maxKey maxVal indent e)).flatten := by
  intro rest
  induction rest with
  | nil => intro indent; simp [dumpPrintTopRest]
  | cons e t ih =>
    intro indent
    obtain ⟨k, v⟩ := e
    cases v <;> simp [dumpPrintTopRest, entryLines, ih]

theorem dumpPrint_top_blank (maxKey maxVal : Nat) :
    ∀ (data : List (String × PyVal)) (indent : Nat),
      dumpPrint maxKey maxVal data indent true
        = List.intercalate [""] (data.map (entryLines maxKey maxVal indent)) := by
  intro data indent
  cases data with
  | nil => simp [dumpPrint, List.intercalate]
  | cons e rest =>
    obtain ⟨k, v⟩ := e
    rw [List.map_cons, intercalate_blank, List.map_map]
    rw [show ((fun x => "" :: x) ∘ entryLines maxKey maxVal indent)
        = (fun e => "" :: entryLines maxKey maxVal indent e) from rfl]
    rw [← dumpPrintTopRest_eq]
    cases v <;> simp [dumpPrint, entryLines]

theorem gathered_key_le (data : List (String × PyVal)) (K : Nat)
    (hk : dumpKeyWidth data = some K) :
    ∀ r ∈ _gather_all_keys_values data 0,
      (spaces (r.1 * 4) ++ r.2.1 ++ ":").length ≤ K := by
  intro r hr
  exact pymax_le hk _ (List.mem_map_of_mem _ hr)

theorem gathered_comment_le (data : List (String × PyVal)) :
    ∀ r ∈ _gather_comment_rows data 0,
      r.2.2.1.length ≤ dumpCommentWidth data := by
  intro r hr
  unfold dumpCommentWidth
  cases hp : pymax ((_gather_comment_rows data 0).map
      (fun r => r.2.2.1.length)) with
  | none =>
    exfalso
    have hnil : (_gather_comment_rows data 0).map
        (fun r => r.2.2.1.length) = [] := by
      cases hq : (_gather_comment_rows data 0).map
          (fun r => r.2.2.1.length) with
      | nil => rfl
      | cons a t => rw [hq] at hp; simp [pymax] at hp
    rw [List.map_eq_nil_iff] at hnil
    rw [hnil] at hr
    cases hr
  | some m =>
    simp only [Option.getD_some]
    exact pymax_le hp _ (List.mem_map_of_mem _ hr)

theorem scalarLine_comment_col (maxKey maxVal ind : Nat) (k : String)
    (v : PyVal) (cm : String)
    (hk : (spaces (ind * 4) ++ k ++ ":").length ≤ maxKey)
    (hv : (pyStr v).length ≤ maxVal) (hcm : cm ≠ "") :
    ∃ stem, scalarLine maxKey maxVal ind k v (some cm) = stem ++ ("# " ++ cm) ∧
      stem.length = maxKey + maxVal + 5 := by
  refine ⟨ljust (spaces (ind * 4) ++ k ++ ":") (maxKey + 1) ++
      ljust (pyStr v) (maxVal + 4), ?_, ?_⟩
  · simp only [scalarLine]
    rw [if_neg (by simpa using hcm)]
    simp [String.append_assoc]
  · rw [String.length_append, ljust_length _ _ (by omega),
      ljust_length _ _ (by omega)]
    omega

theorem scalarLine_value_col (maxKey maxVal ind : Nat) (k : String)
    (v : PyVal) (c : Option String)
    (hk : (spaces (ind * 4) ++ k ++ ":").length ≤ maxKey) :
    ∃ keypart tail,
      scalarLine maxKey maxVal ind k v c = keypart ++ (pyStr v ++ tail) ∧
      keypart.length = maxKey + 1 := by
  cases c with
  | none =>
    refine ⟨ljust (spaces (ind * 4) ++ k ++ ":") (maxKey + 1), "", ?_, ?_⟩
    · simp [scalarLine]
    · exact ljust_length _ _ (by omega)
  | some cm =>
    by_cases hcm : (cm == "") = true
    · refine ⟨ljust (spaces (ind * 4) ++ k ++ ":") (maxKey + 1), "", ?_, ?_⟩
      · simp [scalarLine, hcm]
      · exact ljust_length _ _ (by omega)
    · refine ⟨ljust (spaces (ind * 4) ++ k ++ ":") (maxKey + 1),
        String.mk (List.replicate (maxVal + 4 - (pyStr v).length) ' ') ++
          ("# " ++ cm), ?_, ?_⟩
      · simp only [scalarLine]
        rw [if_neg hcm]
        simp [ljust, String.append_assoc]
      · exact ljust_length _ _ (by omega)

/-- C8, amended: in the rendered template output (a) every inline
`# comment` lands at ONE global column, `maxKey + maxVal + 5`, where the
comment width is taken only over the values that actually carry a comment;
(b) every scalar line's VALUE (not its `:`) starts at one global column,
`maxKey + 1`; (c) the widths the renderer computes really bound every
gathered row (so (a)/(b) apply to every emitted line); and (d) a blank
separator line precedes every top-level field after the first (the
top-level blocks are joined with `[""]` interspersed). -/
theorem c8_amended_alignment :
    (∀ (maxKey maxVal ind : Nat) (k : String) (v : PyVal) (cm : String),
      (spaces (ind * 4) ++ k ++ ":").length ≤ maxKey →
      (pyStr v).length ≤ maxVal → cm ≠ "" →
      ∃ stem,
        scalarLine maxKey maxVal ind k v (some cm) = stem ++ ("# " ++ cm) ∧
        stem.length = maxKey + maxVal + 5) ∧
    (∀ (maxKey maxVal ind : Nat) (k : String) (v : PyVal) (c : Option String),
      (spaces (ind * 4) ++ k ++ ":").length ≤ maxKey →
      ∃ keypart tail,
        scalarLine maxKey maxVal ind k v c = keypart ++ (pyStr v ++ tail) ∧
        keypart.length = maxKey + 1) ∧
    (∀ (data : List (String × PyVal)) (K : Nat),
      dumpKeyWidth data = some K →
      ∀ r ∈ _gather_all_keys_values data 0,
        (spaces (r.1 * 4) ++ r.2.1 ++ ":").length ≤ K) ∧
    (∀ data : List (String × PyVal),
      ∀ r ∈ _gather_comment_rows data 0,
        r.2.2.1.length ≤ dumpCommentWidth data) ∧
    (∀ (maxKey maxVal : Nat) (data : List (String × PyVal)) (ind : Nat),
      dumpPrint maxKey maxVal data ind true
        = List.intercalate [""] (data.map (entryLines maxKey maxVal ind))) :=
  ⟨scalarLine_comment_col, scalarLine_value_col, gathered_key_le,
    gathered_comment_le, fun mk mv => dumpPrint_top_blank mk mv⟩

/-- C8 witness. -/
theorem c8_amended_alignment_witness :
    (∃ stem,
      scalarLine 7 1 1 "a" (PyVal.int 1) (some "note") = stem ++ ("# " ++ "note") ∧
      stem.length = 13) ∧
    (∃ keypart tail,
      scalarLine 7 1 1 "a" (PyVal.int 1) Option.none
        = keypart ++ (pyStr (PyVal.int 1) ++ tail) ∧
      keypart.length = 8) ∧
    (∀ r ∈ _gather_all_keys_values [("a", PyVal.int 1)] 0,
      (spaces (r.1 * 4) ++ r.2.1 ++ ":").length ≤ 2) ∧
    (∀ r ∈ _gather_comment_rows [("a", PyVal.tuple2 (PyVal.int 1) (some "c"))] 0,
      r.2.2.1.length ≤
        dumpCommentWidth [("a", PyVal.tuple2 (PyVal.int 1) (some "c"))]) ∧
    dumpPrint 1 1 [("a", PyVal.int 1)] 0 true
      = List.intercalate [""] ([("a", PyVal.int 1)].map (entryLines 1 1 0)) := by
  have h := c8_amended_alignment
  exact ⟨h.1 7 1 1 "a" (PyVal.int 1) "note" (by decide) (by decide) (by decide),
    h.2.1 7 1 1 "a" (PyVal.int 1) Option.none (by decide),
    h.2.2.1 [("a", PyVal.int 1)] 2 rfl,
    h.2.2.2.1 [("a", PyVal.tuple2 (PyVal.int 1) (some "c"))],
    h.2.2.2.2 1 1 [("a", PyVal.int 1)] 0⟩

end Config
